import Mathlib

/-!
Verification of the `skip_list` repository: a B+ tree over pluggable
node-store backends (contiguous array, singly linked list, skip list).

The repository contains two B+ tree implementations:
* `src/code/bptree.c` — descent by plain lower bound, delete without
  rebalancing.  Embedded below in namespace `BPC`.
* the second `bptree.c` found in `src/unnamed/part_000` — descent by
  upper bound on equality, delete with borrow/merge rebalancing and
  parent-separator fix-up.  Embedded below in namespace `BPU`.

Machine integers: all keys are C `int` values; no arithmetic other than
comparison is performed on keys, so they are embedded as `Int` directly.
Sizes and indices are embedded as `Nat` (the C code keeps them in
`[0, INT_MAX)` ranges).  C assertion failures and undefined behaviour
(dangling pointers, out-of-range reads) are modelled by benign total
behaviour (early return / default value); every concrete execution we
evaluate stays away from these arms, mirroring a run in which no assert
fires.
-/

set_option maxRecDepth 10000

/-- One store entry: a key and the `void*` value slot, which the tree
uses either as a null sentinel (leaves) or as a child pointer
(internal nodes).  Child pointers are node ids (`Nat`). -/
abbrev Entry : Type := Int × Option Nat

/-- A node store: the ordered (key, value) sequence owned by one node.
All three C backends realize this same abstract sequence. -/
abbrev Store : Type := List Entry

/-- Backend selector, mirroring `NodeStoreKind` in nodestore.h. -/
inductive NSKind : Type
  | array
  | linked
  | skiplist
deriving DecidableEq, Repr

namespace NS

/-- Fuel-indexed binary search loop of `ns_lower_bound` in
nodestore_array.c: `while (l < r) { m = l + (r-l)/2; ... }`.  The
interval shrinks every iteration, so `length + 1` fuel is never
exhausted. -/
def lbAux (ks : List Int) (key : Int) : Nat → Nat → Nat → Nat
  | 0, l, _ => l
  | fuel + 1, l, r =>
    if l < r then
      let m := l + (r - l) / 2
      if ks.getD m 0 < key then lbAux ks key fuel (m + 1) r
      else lbAux ks key fuel l m
    else l

/-- `ns_lower_bound` of the array backend (binary search). -/
def arrayLowerBound (s : Store) (key : Int) : Nat :=
  lbAux (s.map Prod.fst) key (s.length + 1) 0 s.length

/-- `ns_lower_bound` of the linked-list backend (nodestore_list.c):
walk forward until the first key `≥ key`. -/
def linearLowerBound : Store → Int → Nat
  | [], _ => 0
  | e :: t, key => if key ≤ e.1 then 0 else linearLowerBound t key + 1

/-- `insert_at` of the array and linked backends: positional insert,
shifting the tail right. -/
def posInsertAt (s : Store) (idx : Nat) (key : Int) (val : Option Nat) : Store :=
  s.insertIdx idx (key, val)

/-- `erase_at` of the array and linked backends: positional erase. -/
def posEraseAt (s : Store) (idx : Nat) : Store :=
  s.eraseIdx idx

/-- `skiplist_insert` (skiplist.c): walk past keys `< key`; on an equal
key overwrite the value, otherwise link a new node before the first
key `≥ key`. -/
def slInsert : Store → Int → Option Nat → Store
  | [], key, val => [(key, val)]
  | e :: t, key, val =>
    if e.1 < key then e :: slInsert t key val
    else if e.1 = key then (key, val) :: t
    else (key, val) :: e :: t

/-- `skiplist_erase` (skiplist.c): remove the first node with exactly
this key, if any. -/
def slErase : Store → Int → Store
  | [], _ => []
  | e :: t, key =>
    if e.1 < key then e :: slErase t key
    else if e.1 = key then t
    else e :: t

/-- `ns_insert_at` of nodestore_skip.c: the positional index is ignored
(`(void)idx`) and the entry is inserted by key into the skip list. -/
def skipInsertAt (s : Store) (_idx : Nat) (key : Int) (val : Option Nat) : Store :=
  slInsert s key val

/-- `ns_erase_at` of nodestore_skip.c: read the key at the index, then
erase that key from the skip list. -/
def skipEraseAt (s : Store) (idx : Nat) : Store :=
  if h : idx < s.length then slErase s (s.get ⟨idx, h⟩).1 else s

end NS

/-- The part of the `NodeStoreOps` dispatch table whose behaviour
differs between backends, as used by the tree layer.  `size`,
`key_at`, `val_at` and `clear` behave identically on the abstract
sequence in all three backends. -/
structure NSOps : Type where
  lowerBound : Store → Int → Nat
  insertAt : Store → Nat → Int → Option Nat → Store
  eraseAt : Store → Nat → Store

/-- `nodestore_get_ops` (nodestore.c): select the dispatch table. -/
def nsGetOps : NSKind → NSOps
  | .array => ⟨NS.arrayLowerBound, NS.posInsertAt, NS.posEraseAt⟩
  | .linked => ⟨NS.linearLowerBound, NS.posInsertAt, NS.posEraseAt⟩
  | .skiplist => ⟨NS.linearLowerBound, NS.skipInsertAt, NS.skipEraseAt⟩

/-- `BPTreeNode` (bptree.c): header record over one node store. -/
structure Node : Type where
  isLeaf : Bool
  maxKeys : Nat
  parent : Option Nat
  next : Option Nat
  child0 : Option Nat
  store : Store
deriving DecidableEq, Repr

/-- The C heap restricted to live `BPTreeNode` allocations: an
association list from node id to node.  Ids are unique (fresh ids come
from a counter). -/
abbrev Heap : Type := List (Nat × Node)

/-- `BPTree` (bptree.c) together with the allocator state. -/
structure TState : Type where
  orderM : Int
  maxKeys : Nat
  kind : NSKind
  root : Option Nat
  heap : Heap
  nextId : Nat
deriving DecidableEq, Repr

/-- Dereference a node pointer. -/
def hfind : Heap → Nat → Option Node
  | [], _ => none
  | (j, n) :: h, i => if j = i then some n else hfind h i

/-- Write through a node pointer (ids are unique, so replacing the
first binding is a faithful heap update). -/
def hset : Heap → Nat → Node → Heap
  | [], _, _ => []
  | (j, n) :: h, i, nw => if j = i then (j, nw) :: h else (j, n) :: hset h i nw

/-- Mutate the node a pointer refers to; dereferencing a dangling
pointer is UB in C and modelled as a no-op. -/
def hupd (t : TState) (i : Nat) (f : Node → Node) : TState :=
  match hfind t.heap i with
  | none => t
  | some n => { t with heap := hset t.heap i (f n) }

/-- `calloc` of a node (`node_create`): extend the heap with a fresh id. -/
def halloc (t : TState) (n : Node) : TState × Nat :=
  ({ t with heap := t.heap ++ [(t.nextId, n)], nextId := t.nextId + 1 }, t.nextId)

/-- `free` of a node (`node_destroy`): drop the binding from the heap. -/
def hfree (t : TState) (i : Nat) : TState :=
  { t with heap := t.heap.filter (fun p => p.1 ≠ i) }

/-- `key_at` on a node's store (asserted in-range in C). -/
def keyAt (n : Node) (idx : Nat) : Int :=
  (n.store.getD idx (0, none)).1

/-- `val_at` on a node's store (asserted in-range in C). -/
def valAt (n : Node) (idx : Nat) : Option Nat :=
  (n.store.getD idx (0, none)).2

/-- `node_keys`: current size of a node's store. -/
def nodeKeys (n : Node) : Nat := n.store.length

/-- `node_overflow`: `node_keys(x) > x->max_keys`. -/
def nodeOverflow (n : Node) : Bool := n.maxKeys < nodeKeys n

/-- Set the parent field of an optionally-null child pointer
(`if (c) c->parent = p;`). -/
def setParentTo (t : TState) (c : Option Nat) (p : Option Nat) : TState :=
  match c with
  | none => t
  | some ci => hupd t ci (fun m => { m with parent := p })

/-- The split and merge loops `for (i = 0; ...) insert_at(store, i, keys[i], 0)`
run over a store that starts empty, so the positional index always equals
the current size. -/
def insKeysLoop (ops : NSOps) (ks : List Int) (s : Store) : Store :=
  ks.foldl (fun acc k => ops.insertAt acc acc.length k none) s

/-- The internal-node variant of the reinsertion loop:
`insert_at(x->store, i, keys[i], ch[i+1]); if (ch[i+1]) ch[i+1]->parent = x;`. -/
def insEntriesLoop (xi : Nat) : List Entry → TState → TState
  | [], t => t
  | (k, c) :: es, t =>
    let t1 := hupd t xi (fun m =>
      { m with store := (nsGetOps t.kind).insertAt m.store m.store.length k c })
    let t2 := match c with
      | some ci => hupd t1 ci (fun m => { m with parent := some xi })
      | none => t1
    insEntriesLoop xi es t2

/-- `bptree_create` (identical in both bptree.c files): clamp the order
up to 3, default a null ops table to the array backend, allocate a
single empty leaf as root. -/
def bptreeCreate (orderM : Int) (ops? : Option NSKind) : TState :=
  let m := if orderM < 3 then 3 else orderM
  let kind := match ops? with
    | none => NSKind.array
    | some k => k
  let mk := (m - 1).toNat
  { orderM := m, maxKeys := mk, kind := kind, root := some 0,
    heap := [(0, { isLeaf := true, maxKeys := mk, parent := none, next := none,
                   child0 := none, store := [] })],
    nextId := 1 }

/-- `leaf_find` (identical in both bptree.c files): lower-bound in the
leaf store, report whether the slot holds exactly the key. -/
def leafFind (t : TState) (li : Nat) (key : Int) : Bool × Nat :=
  match hfind t.heap li with
  | none => (false, 0)
  | some n =>
    let idx := (nsGetOps t.kind).lowerBound n.store key
    (decide (idx < nodeKeys n) && decide (keyAt n idx = key), idx)

/-- The `while (x && !x->is_leaf) { h++; x = x->child0; }` loop of
`bptree_height`. -/
def heightAux (t : TState) : Nat → Option Nat → Nat → Nat
  | 0, _, h => h
  | fuel + 1, x, h =>
    match x with
    | none => h
    | some i =>
      match hfind t.heap i with
      | none => h
      | some n => if n.isLeaf then h else heightAux t fuel n.child0 (h + 1)

/-- `bptree_height` on a non-null tree. -/
def heightT (t : TState) : Nat :=
  match t.root with
  | none => 0
  | some r => heightAux t (t.heap.length + 1) (some r) 1

/-- `split_leaf` up to (but not including) its final `insert_into_parent`
call, identical in both bptree.c files: with `total = size(leaf)` keys,
keep the first `left_sz = (total + 1) / 2` in the original leaf, move
the rest into a fresh right leaf spliced into the leaf chain, and
return the separator `key_at(right->store, 0)` together with the new
leaf's id. -/
def splitLeafCore (t : TState) (li : Nat) : TState × Int × Nat :=
  match hfind t.heap li with
  | none => (t, 0, t.nextId)
  | some n =>
    let total := nodeKeys n
    let leftSz := (total + 1) / 2
    let ks := n.store.map Prod.fst
    let alloc := halloc t { isLeaf := true, maxKeys := t.maxKeys, parent := n.parent,
                            next := none, child0 := none, store := [] }
    let t1 := alloc.1
    let ri := alloc.2
    let t2 := hupd t1 li (fun m => { m with store := [] })
    let t3 := hupd t2 li (fun m =>
      { m with store := insKeysLoop (nsGetOps t.kind) (ks.take leftSz) m.store })
    let t4 := hupd t3 ri (fun m =>
      { m with store := insKeysLoop (nsGetOps t.kind) (ks.drop leftSz) m.store })
    let t5 := hupd t4 ri (fun m => { m with next := n.next })
    let t6 := hupd t5 li (fun m => { m with next := some ri })
    let sep := match hfind t6.heap ri with
      | some rn => keyAt rn 0
      | none => 0
    (t6, sep, ri)

/-- Post-order `destroy_subtree` (identical in both bptree.c files),
reported as the list of freed node ids. -/
def destroySubtree : Nat → TState → Option Nat → List Nat
  | 0, _, _ => []
  | fuel + 1, t, x =>
    match x with
    | none => []
    | some i =>
      match hfind t.heap i with
      | none => [i]
      | some n =>
        (if n.isLeaf then []
         else destroySubtree fuel t n.child0 ++
           (n.store.map Prod.snd).foldl (fun acc c => acc ++ destroySubtree fuel t c) []) ++ [i]

/-- `bptree_destroy`: a null handle frees nothing. -/
def bptreeDestroy : Option TState → List Nat
  | none => []
  | some t => destroySubtree (t.heap.length + 1) t t.root

namespace BPC

/-- Descent loop of `find_leaf` in src/code/bptree.c: plain lower bound
(`idx == 0` goes to `child0`, otherwise to the child in value slot
`idx - 1`). -/
def findLeafAux (t : TState) (key : Int) : Nat → Option Nat → Option Nat
  | 0, _ => none
  | fuel + 1, x =>
    match x with
    | none => none
    | some i =>
      match hfind t.heap i with
      | none => none
      | some n =>
        if n.isLeaf then some i
        else
          let idx := (nsGetOps t.kind).lowerBound n.store key
          findLeafAux t key fuel (if idx = 0 then n.child0 else valAt n (idx - 1))

/-- `find_leaf` of src/code/bptree.c. -/
def findLeaf (t : TState) (key : Int) : Option Nat :=
  findLeafAux t key (t.heap.length + 1) t.root

/-- `bptree_search` of src/code/bptree.c on a non-null tree. -/
def searchT (t : TState) (key : Int) : Bool :=
  match t.root with
  | none => false
  | some _ =>
    match findLeaf t key with
    | none => false
    | some li => (leafFind t li key).1

/-- `split_internal` of src/code/bptree.c up to its final
`insert_into_parent` call: `mid = k / 2`, the key at `mid` moves up,
the original node keeps children `ch[0..mid]` and keys `0..mid-1`, the
fresh right internal node takes the rest. -/
def splitInternalCore (t : TState) (xi : Nat) : TState × Int × Nat :=
  match hfind t.heap xi with
  | none => (t, 0, t.nextId)
  | some n =>
    let k := nodeKeys n
    let ks := n.store.map Prod.fst
    let ch : List (Option Nat) := n.child0 :: n.store.map Prod.snd
    let mid := k / 2
    let upKey := ks.getD mid 0
    let alloc := halloc t { isLeaf := false, maxKeys := t.maxKeys, parent := n.parent,
                            next := none, child0 := none, store := [] }
    let t1 := alloc.1
    let ri := alloc.2
    let t2 := hupd t1 xi (fun m => { m with store := [] })
    let t3 := hupd t2 xi (fun m => { m with child0 := ch.getD 0 none })
    let t4 := setParentTo t3 (ch.getD 0 none) (some xi)
    let t5 := insEntriesLoop xi (n.store.take mid) t4
    let t6 := hupd t5 ri (fun m => { m with child0 := ch.getD (mid + 1) none })
    let t7 := setParentTo t6 (ch.getD (mid + 1) none) (some ri)
    let t8 := insEntriesLoop ri (n.store.drop (mid + 1)) t7
    (t8, upKey, ri)

/-- `insert_into_parent` of src/code/bptree.c; the recursion through
`split_internal` is fuelled by the heap size (the parent chain of a
well-formed tree is shorter). -/
def insertIntoParent : Nat → TState → Nat → Int → Nat → TState
  | 0, t, _, _, _ => t
  | fuel + 1, t, left, sepKey, right =>
    match hfind t.heap left with
    | none => t
    | some ln =>
      match ln.parent with
      | none =>
        let alloc := halloc t { isLeaf := false, maxKeys := t.maxKeys, parent := none,
                                next := none, child0 := none, store := [] }
        let t1 := alloc.1
        let rootId := alloc.2
        let t2 := hupd t1 rootId (fun m => { m with child0 := some left })
        let t3 := hupd t2 left (fun m => { m with parent := some rootId })
        let t4 := hupd t3 rootId (fun m =>
          { m with store := (nsGetOps t.kind).insertAt m.store 0 sepKey (some right) })
        let t5 := hupd t4 right (fun m => { m with parent := some rootId })
        { t5 with root := some rootId }
      | some p =>
        match hfind t.heap p with
        | none => t
        | some pn =>
          let pos? : Option Nat :=
            if pn.child0 = some left then some 0
            else
              match pn.store.findIdx? (fun e => decide (e.2 = some left)) with
              | some i => some (i + 1)
              | none => none
          match pos? with
          | none => t
          | some pos =>
            let t1 := hupd t p (fun m =>
              { m with store := (nsGetOps t.kind).insertAt m.store pos sepKey (some right) })
            let t2 := hupd t1 right (fun m => { m with parent := some p })
            match hfind t2.heap p with
            | none => t2
            | some pn2 =>
              if nodeOverflow pn2 then
                let si := splitInternalCore t2 p
                insertIntoParent fuel si.1 p si.2.1 si.2.2
              else t2

/-- `bptree_insert` of src/code/bptree.c: descend, return on a
duplicate, insert at the lower bound, split on overflow.  No
parent-separator fix-up is performed. -/
def insertT (t : TState) (key : Int) : TState :=
  match t.root with
  | none => t
  | some _ =>
    match findLeaf t key with
    | none => t
    | some li =>
      let fi := leafFind t li key
      if fi.1 then t
      else
        let t1 := hupd t li (fun m =>
          { m with store := (nsGetOps t.kind).insertAt m.store fi.2 key none })
        match hfind t1.heap li with
        | none => t1
        | some n1 =>
          if nodeOverflow n1 then
            let sl := splitLeafCore t1 li
            insertIntoParent (sl.1.heap.length + 1) sl.1 li sl.2.1 sl.2.2
          else t1

/-- Root-shrink loop of `bptree_delete` in src/code/bptree.c (the same
loop is `fix_root_after_delete` in the second implementation): while
the root is an internal node with no keys, replace it by its `child0`
and free it. -/
def fixRoot : Nat → TState → TState
  | 0, t => t
  | fuel + 1, t =>
    match t.root with
    | none => t
    | some r =>
      match hfind t.heap r with
      | none => t
      | some n =>
        if n.isLeaf then t
        else if nodeKeys n = 0 then
          let t1 := setParentTo t n.child0 none
          let t2 := { t1 with root := n.child0 }
          fixRoot fuel (hfree t2 r)
        else t

/-- `bptree_delete` of src/code/bptree.c: erase the key from the found
leaf if present, then shrink empty internal roots.  There is no
borrow/merge rebalancing. -/
def deleteT (t : TState) (key : Int) : TState :=
  match t.root with
  | none => t
  | some _ =>
    match findLeaf t key with
    | none => t
    | some li =>
      let fi := leafFind t li key
      if fi.1 then
        let t1 := hupd t li (fun m =>
          { m with store := (nsGetOps t.kind).eraseAt m.store fi.2 })
        fixRoot (t1.heap.length + 1) t1
      else t

/-- Null-handle wrapper of `bptree_search` (`if (!t || !t->root) return 0`). -/
def searchH (t? : Option TState) (key : Int) : Bool :=
  match t? with
  | none => false
  | some t => searchT t key

/-- Null-handle wrapper of `bptree_insert`. -/
def insertH (t? : Option TState) (key : Int) : Option TState :=
  match t? with
  | none => none
  | some t => some (insertT t key)

/-- Null-handle wrapper of `bptree_delete`. -/
def deleteH (t? : Option TState) (key : Int) : Option TState :=
  match t? with
  | none => none
  | some t => some (deleteT t key)

/-- Null-handle wrapper of `bptree_height`. -/
def heightH (t? : Option TState) : Nat :=
  match t? with
  | none => 0
  | some t => heightT t

end BPC

namespace BPU

/-- `min_leaf_keys`: `ceil((M-1)/2) = (max_keys + 1) / 2`. -/
def minLeafKeys (t : TState) : Nat := (t.maxKeys + 1) / 2

/-- `min_internal_keys`: `ceil(M/2) - 1 = (order_M + 1) / 2 - 1`. -/
def minInternalKeys (t : TState) : Nat := ((t.orderM + 1) / 2 - 1).toNat

/-- `store_set_key`: overwrite the key at an index, keeping its value,
by erase followed by insert; out-of-range indices are rejected. -/
def storeSetKey (t : TState) (ni : Nat) (idx : Nat) (newKey : Int) : TState :=
  hupd t ni (fun m =>
    if idx < m.store.length then
      { m with store := ((nsGetOps t.kind).insertAt
          ((nsGetOps t.kind).eraseAt m.store idx) idx newKey (valAt m idx)) }
    else m)

/-- `parent_child_at`: child 0 is `child0`, child `i+1` sits in value
slot `i`. -/
def parentChildAt (t : TState) (p : Nat) (ci : Nat) : Option Nat :=
  match hfind t.heap p with
  | none => none
  | some pn => if ci = 0 then pn.child0 else valAt pn (ci - 1)

/-- `parent_child_index`: position of a child within its parent
(`none` models the C return value `-1`). -/
def parentChildIndex (t : TState) (p : Nat) (c : Nat) : Option Nat :=
  match hfind t.heap p with
  | none => none
  | some pn =>
    if pn.child0 = some c then some 0
    else
      match pn.store.findIdx? (fun e => decide (e.2 = some c)) with
      | some i => some (i + 1)
      | none => none

/-- Descent of `subtree_first_key`: follow `child0` links to a leaf and
read its first key. -/
def subtreeFirstKeyAux (t : TState) : Nat → Option Nat → Int
  | 0, _ => 0
  | fuel + 1, x =>
    match x with
    | none => 0
    | some i =>
      match hfind t.heap i with
      | none => 0
      | some n => if n.isLeaf then keyAt n 0 else subtreeFirstKeyAux t fuel n.child0

/-- `subtree_first_key`: minimum key of the subtree rooted at a node. -/
def subtreeFirstKey (t : TState) (x : Nat) : Int :=
  subtreeFirstKeyAux t (t.heap.length + 1) (some x)

/-- `update_parent_sep_if_needed`: if `x` is child `j > 0` of its
parent, overwrite the parent's key `j - 1` with the minimum of `x`
(first key for a leaf, subtree minimum for an internal node); an empty
leaf or a `child0` position is left alone. -/
def updateParentSepIfNeeded (t : TState) (xi : Nat) : TState :=
  match hfind t.heap xi with
  | none => t
  | some xn =>
    match xn.parent with
    | none => t
    | some p =>
      let nmin? : Option Int :=
        if xn.isLeaf then
          if nodeKeys xn = 0 then none else some (keyAt xn 0)
        else some (subtreeFirstKey t xi)
      match nmin? with
      | none => t
      | some nmin =>
        match parentChildIndex t p xi with
        | none => t
        | some j => if 0 < j then storeSetKey t p (j - 1) nmin else t

/-- Descent loop of `find_leaf` in the second bptree.c: lower bound,
bumped one slot to the right when the slot key equals the search key
(upper-bound semantics, "equal goes right"). -/
def findLeafAux (t : TState) (key : Int) : Nat → Option Nat → Option Nat
  | 0, _ => none
  | fuel + 1, x =>
    match x with
    | none => none
    | some i =>
      match hfind t.heap i with
      | none => none
      | some n =>
        if n.isLeaf then some i
        else
          let idx0 := (nsGetOps t.kind).lowerBound n.store key
          let idx := if idx0 < nodeKeys n ∧ keyAt n idx0 = key then idx0 + 1 else idx0
          findLeafAux t key fuel (if idx = 0 then n.child0 else valAt n (idx - 1))

/-- `find_leaf` of the second bptree.c. -/
def findLeaf (t : TState) (key : Int) : Option Nat :=
  findLeafAux t key (t.heap.length + 1) t.root

/-- `bptree_search` of the second bptree.c on a non-null tree. -/
def searchT (t : TState) (key : Int) : Bool :=
  match t.root with
  | none => false
  | some _ =>
    match findLeaf t key with
    | none => false
    | some li => (leafFind t li key).1

/-- `split_internal` of the second bptree.c up to its final
`insert_into_parent` call: `left_children = ceil((k+1)/2)` children
stay, the rest move to a fresh right internal node, and the promoted
separator is `subtree_first_key(right)` (copy-up). -/
def splitInternalCore (t : TState) (xi : Nat) : TState × Int × Nat :=
  match hfind t.heap xi with
  | none => (t, 0, t.nextId)
  | some n =>
    let k := nodeKeys n
    let ch : List (Option Nat) := n.child0 :: n.store.map Prod.snd
    let nchildren := k + 1
    let leftChildren := (nchildren + 1) / 2
    let leftKeys := leftChildren - 1
    let alloc := halloc t { isLeaf := false, maxKeys := t.maxKeys, parent := n.parent,
                            next := none, child0 := none, store := [] }
    let t1 := alloc.1
    let ri := alloc.2
    let t2 := hupd t1 xi (fun m => { m with store := [] })
    let t3 := hupd t2 xi (fun m => { m with child0 := ch.getD 0 none })
    let t4 := setParentTo t3 (ch.getD 0 none) (some xi)
    let t5 := insEntriesLoop xi (n.store.take leftKeys) t4
    let t6 := hupd t5 ri (fun m => { m with child0 := ch.getD leftChildren none })
    let t7 := setParentTo t6 (ch.getD leftChildren none) (some ri)
    let t8 := insEntriesLoop ri (n.store.drop leftChildren) t7
    let sep := subtreeFirstKey t8 ri
    (t8, sep, ri)

/-- `insert_into_parent` of the second bptree.c (identical to the first
implementation except that the child position comes from
`parent_child_index` and the recursion uses the copy-up internal
split). -/
def insertIntoParent : Nat → TState → Nat → Int → Nat → TState
  | 0, t, _, _, _ => t
  | fuel + 1, t, left, sepKey, right =>
    match hfind t.heap left with
    | none => t
    | some ln =>
      match ln.parent with
      | none =>
        let alloc := halloc t { isLeaf := false, maxKeys := t.maxKeys, parent := none,
                                next := none, child0 := none, store := [] }
        let t1 := alloc.1
        let rootId := alloc.2
        let t2 := hupd t1 rootId (fun m => { m with child0 := some left })
        let t3 := hupd t2 left (fun m => { m with parent := some rootId })
        let t4 := hupd t3 rootId (fun m =>
          { m with store := (nsGetOps t.kind).insertAt m.store 0 sepKey (some right) })
        let t5 := hupd t4 right (fun m => { m with parent := some rootId })
        { t5 with root := some rootId }
      | some p =>
        match parentChildIndex t p left with
        | none => t
        | some j =>
          let t1 := hupd t p (fun m =>
            { m with store := (nsGetOps t.kind).insertAt m.store j sepKey (some right) })
          let t2 := hupd t1 right (fun m => { m with parent := some p })
          match hfind t2.heap p with
          | none => t2
          | some pn2 =>
            if nodeOverflow pn2 then
              let si := splitInternalCore t2 p
              insertIntoParent fuel si.1 p si.2.1 si.2.2
            else t2

/-- `bptree_insert` of the second bptree.c: like the first
implementation, but followed by `update_parent_sep_if_needed` on the
leaf. -/
def insertT (t : TState) (key : Int) : TState :=
  match t.root with
  | none => t
  | some _ =>
    match findLeaf t key with
    | none => t
    | some li =>
      let fi := leafFind t li key
      if fi.1 then t
      else
        let t1 := hupd t li (fun m =>
          { m with store := (nsGetOps t.kind).insertAt m.store fi.2 key none })
        let t2 :=
          match hfind t1.heap li with
          | none => t1
          | some n1 =>
            if nodeOverflow n1 then
              let sl := splitLeafCore t1 li
              insertIntoParent (sl.1.heap.length + 1) sl.1 li sl.2.1 sl.2.2
            else t1
        updateParentSepIfNeeded t2 li

/-- `fix_root_after_delete` (same loop as in the first implementation). -/
def fixRootAfterDelete : Nat → TState → TState
  | 0, t => t
  | fuel + 1, t =>
    match t.root with
    | none => t
    | some r =>
      match hfind t.heap r with
      | none => t
      | some n =>
        if n.isLeaf then t
        else if nodeKeys n = 0 then
          let t1 := setParentTo t n.child0 none
          let t2 := { t1 with root := n.child0 }
          fixRootAfterDelete fuel (hfree t2 r)
        else t

/-- `borrow_from_left_leaf`: move the left sibling's last key to the
front of the underflowing leaf and refresh the leaf's parent
separator; `none` when the sibling is at its minimum. -/
def borrowFromLeftLeaf (t : TState) (leaf lft : Nat) (leafIdx : Nat) : Option TState :=
  match hfind t.heap lft with
  | none => none
  | some lfn =>
    let ln := nodeKeys lfn
    if ln ≤ minLeafKeys t then none
    else
      let k := keyAt lfn (ln - 1)
      let t1 := hupd t lft (fun m =>
        { m with store := (nsGetOps t.kind).eraseAt m.store (ln - 1) })
      let t2 := hupd t1 leaf (fun m =>
        { m with store := (nsGetOps t.kind).insertAt m.store 0 k none })
      match hfind t2.heap leaf with
      | none => some t2
      | some leafn2 =>
        match leafn2.parent with
        | none => some t2
        | some p => some (storeSetKey t2 p (leafIdx - 1) (keyAt leafn2 0))

/-- `borrow_from_right_leaf`: move the right sibling's first key to the
tail of the underflowing leaf; refresh the right sibling's parent
separator if the sibling is still nonempty. -/
def borrowFromRightLeaf (t : TState) (leaf rgt : Nat) (leafIdx : Nat) : Option TState :=
  match hfind t.heap rgt with
  | none => none
  | some rn =>
    let rsz := nodeKeys rn
    if rsz ≤ minLeafKeys t then none
    else
      let k := keyAt rn 0
      let t1 := hupd t rgt (fun m =>
        { m with store := (nsGetOps t.kind).eraseAt m.store 0 })
      let t2 := hupd t1 leaf (fun m =>
        { m with store := (nsGetOps t.kind).insertAt m.store m.store.length k none })
      match hfind t2.heap rgt, hfind t2.heap leaf with
      | some rn2, some leafn2 =>
        if 0 < nodeKeys rn2 then
          match leafn2.parent with
          | none => some t2
          | some p => some (storeSetKey t2 p leafIdx (keyAt rn2 0))
        else some t2
      | _, _ => some t2

/-- `merge_leaf_into_left`: append the underflowing leaf's keys to its
left sibling, splice the leaf chain, erase the parent entry pointing
at the leaf, free the leaf. -/
def mergeLeafIntoLeft (t : TState) (lft leaf : Nat) (leafIdx : Nat) : TState :=
  match hfind t.heap lft, hfind t.heap leaf with
  | some _, some leafn =>
    let ks := leafn.store.map Prod.fst
    let t1 := hupd t lft (fun m =>
      { m with store := insKeysLoop (nsGetOps t.kind) ks m.store })
    let t2 := hupd t1 lft (fun m => { m with next := leafn.next })
    match leafIdx, hfind t2.heap lft with
    | lj + 1, some lfn2 =>
      match lfn2.parent with
      | none => hfree t2 leaf
      | some p =>
        let t3 := hupd t2 p (fun m =>
          { m with store := (nsGetOps t.kind).eraseAt m.store lj })
        hfree t3 leaf
    | _, _ => t2
  | _, _ => t

/-- `merge_right_leaf_into_leaf`: append the right sibling's keys to
the leaf, splice the chain, erase the parent entry pointing at the
sibling, free the sibling. -/
def mergeRightLeafIntoLeaf (t : TState) (leaf rgt : Nat) (leafIdx : Nat) : TState :=
  match hfind t.heap leaf, hfind t.heap rgt with
  | some _, some rn =>
    let ks := rn.store.map Prod.fst
    let t1 := hupd t leaf (fun m =>
      { m with store := insKeysLoop (nsGetOps t.kind) ks m.store })
    let t2 := hupd t1 leaf (fun m => { m with next := rn.next })
    match hfind t2.heap leaf with
    | none => t2
    | some leafn2 =>
      match leafn2.parent with
      | none => hfree t2 rgt
      | some p =>
        let t3 := hupd t2 p (fun m =>
          { m with store := (nsGetOps t.kind).eraseAt m.store leafIdx })
        hfree t3 rgt
  | _, _ => t

/-- `borrow_from_left_internal`: the left sibling's last child becomes
the new `child0` of the underflowing internal node; the old parent
separator drops into the node and the parent separator becomes the
borrowed child's subtree minimum. -/
def borrowFromLeftInternal (t : TState) (x lft : Nat) (xIdx : Nat) : Option TState :=
  match hfind t.heap lft, hfind t.heap x with
  | some lfn, some xn =>
    let lkeys := nodeKeys lfn
    if lkeys ≤ minInternalKeys t then none
    else
      match xn.parent with
      | none => none
      | some p =>
        match hfind t.heap p with
        | none => none
        | some pn =>
          let parentSep := keyAt pn (xIdx - 1)
          let borrowChild := valAt lfn (lkeys - 1)
          let borrowChildMin :=
            match borrowChild with
            | some bc => subtreeFirstKey t bc
            | none => 0
          let t1 := hupd t lft (fun m =>
            { m with store := (nsGetOps t.kind).eraseAt m.store (lkeys - 1) })
          let oldC0 := xn.child0
          let t2 := hupd t1 x (fun m => { m with child0 := borrowChild })
          let t3 := setParentTo t2 borrowChild (some x)
          let t4 := hupd t3 x (fun m =>
            { m with store := ((nsGetOps t.kind).insertAt m.store 0 parentSep oldC0) })
          let t5 := setParentTo t4 oldC0 (some x)
          some (storeSetKey t5 p (xIdx - 1) borrowChildMin)
  | _, _ => none

/-- `borrow_from_right_internal`: the right sibling's `child0` moves to
the tail of the underflowing node under the old parent separator; the
sibling's first entry becomes its new `child0` and the parent
separator becomes that entry's key. -/
def borrowFromRightInternal (t : TState) (x rgt : Nat) (xIdx : Nat) : Option TState :=
  match hfind t.heap rgt, hfind t.heap x with
  | some rn, some xn =>
    let rkeys := nodeKeys rn
    if rkeys ≤ minInternalKeys t then none
    else
      match xn.parent with
      | none => none
      | some p =>
        match hfind t.heap p with
        | none => none
        | some pn =>
          let parentSep := keyAt pn xIdx
          let borrowChild := rn.child0
          let newC0 := valAt rn 0
          let newRightMin := keyAt rn 0
          let t1 := hupd t rgt (fun m =>
            { m with store := (nsGetOps t.kind).eraseAt m.store 0 })
          let t2 := hupd t1 rgt (fun m => { m with child0 := newC0 })
          let t3 := setParentTo t2 newC0 (some rgt)
          let t4 := hupd t3 x (fun m =>
            { m with store := ((nsGetOps t.kind).insertAt m.store m.store.length
                parentSep borrowChild) })
          let t5 := setParentTo t4 borrowChild (some x)
          some (storeSetKey t5 p xIdx newRightMin)
  | _, _ => none

/-- `merge_internal_into_left`: fold the underflowing internal node
into its left sibling under the parent separator, reparent the moved
children, erase the parent entry, free the node. -/
def mergeInternalIntoLeft (t : TState) (lft x : Nat) (xIdx : Nat) : TState :=
  match hfind t.heap lft, hfind t.heap x with
  | some lfn, some xn =>
    match lfn.parent with
    | none => t
    | some p =>
      match hfind t.heap p with
      | none => t
      | some pn =>
        let sep := keyAt pn (xIdx - 1)
        let t1 := hupd t lft (fun m =>
          { m with store := ((nsGetOps t.kind).insertAt m.store m.store.length
              sep xn.child0) })
        let t2 := setParentTo t1 xn.child0 (some lft)
        let t3 := insEntriesLoop lft xn.store t2
        let t4 := hupd t3 p (fun m =>
          { m with store := (nsGetOps t.kind).eraseAt m.store (xIdx - 1) })
        hfree t4 x
  | _, _ => t

/-- `merge_right_internal_into_x`: symmetric merge of the right sibling
into the underflowing node. -/
def mergeRightInternalIntoX (t : TState) (x rgt : Nat) (xIdx : Nat) : TState :=
  match hfind t.heap x, hfind t.heap rgt with
  | some xn, some rn =>
    match xn.parent with
    | none => t
    | some p =>
      match hfind t.heap p with
      | none => t
      | some pn =>
        let sep := keyAt pn xIdx
        let t1 := hupd t x (fun m =>
          { m with store := ((nsGetOps t.kind).insertAt m.store m.store.length
              sep rn.child0) })
        let t2 := setParentTo t1 rn.child0 (some x)
        let t3 := insEntriesLoop x rn.store t2
        let t4 := hupd t3 p (fun m =>
          { m with store := (nsGetOps t.kind).eraseAt m.store xIdx })
        hfree t4 rgt
  | _, _ => t

/-- `rebalance_after_delete`: stop at the root (shrinking it), refresh
the parent separator when the node is not underfull, otherwise borrow
from the left then the right sibling, otherwise merge and recurse into
the parent. -/
def rebalanceAfterDelete : Nat → TState → Nat → TState
  | 0, t, _ => t
  | fuel + 1, t, xi =>
    if t.root = some xi then fixRootAfterDelete (t.heap.length + 1) t
    else
      match hfind t.heap xi with
      | none => t
      | some xn =>
        match xn.parent with
        | none => t
        | some p =>
          match parentChildIndex t p xi, hfind t.heap p with
          | some j, some pn =>
            let nk := nodeKeys xn
            let lft := if 0 < j then parentChildAt t p (j - 1) else none
            let rgt := if j < nodeKeys pn then parentChildAt t p (j + 1) else none
            if xn.isLeaf then
              if minLeafKeys t ≤ nk then updateParentSepIfNeeded t xi
              else
                match lft.bind (fun l => borrowFromLeftLeaf t xi l j) with
                | some t1 => t1
                | none =>
                  match rgt.bind (fun r => borrowFromRightLeaf t xi r j) with
                  | some t1 => t1
                  | none =>
                    match lft with
                    | some l => rebalanceAfterDelete fuel (mergeLeafIntoLeft t l xi j) p
                    | none =>
                      match rgt with
                      | some r =>
                        rebalanceAfterDelete fuel (mergeRightLeafIntoLeaf t xi r j) p
                      | none => t
            else
              if minInternalKeys t ≤ nk then updateParentSepIfNeeded t xi
              else
                match lft.bind (fun l => borrowFromLeftInternal t xi l j) with
                | some t1 => t1
                | none =>
                  match rgt.bind (fun r => borrowFromRightInternal t xi r j) with
                  | some t1 => t1
                  | none =>
                    match lft with
                    | some l => rebalanceAfterDelete fuel (mergeInternalIntoLeft t l xi j) p
                    | none =>
                      match rgt with
                      | some r =>
                        rebalanceAfterDelete fuel (mergeRightInternalIntoX t xi r j) p
                      | none => t
          | _, _ => t

/-- `bptree_delete` of the second bptree.c: erase from the found leaf,
rebalance upward from it, then shrink the root. -/
def deleteT (t : TState) (key : Int) : TState :=
  match t.root with
  | none => t
  | some _ =>
    match findLeaf t key with
    | none => t
    | some li =>
      let fi := leafFind t li key
      if fi.1 then
        let t1 := hupd t li (fun m =>
          { m with store := (nsGetOps t.kind).eraseAt m.store fi.2 })
        let t2 := rebalanceAfterDelete (t1.heap.length + 1) t1 li
        fixRootAfterDelete (t2.heap.length + 1) t2
      else t

end BPU

namespace NS

/-- `ns_split` of nodestore_array.c: left keeps `mid = n / 2` entries,
the tail moves to the (empty) right store, and `right->keys[0]` is
returned — an out-of-bounds read (modelled as `none`) when the right
store is empty. -/
def arraySplit (l : Store) : Store × Store × Option Int :=
  let mid := l.length / 2
  (l.take mid, l.drop mid, (l.drop mid).head?.map Prod.fst)

/-- `ns_split` of nodestore_list.c: `mid = n / 2` bumped to 1 when it
is 0; walking an empty list dereferences a null head and the final
`assert(right->head)` fails when nothing moved — both modelled as
`none`. -/
def listSplit (l : Store) : Option (Store × Store × Int) :=
  let mid0 := l.length / 2
  let mid := if mid0 = 0 then 1 else mid0
  if l.length = 0 then none
  else
    match (l.drop mid).head? with
    | none => none
    | some e => some (l.take mid, l.drop mid, e.1)

/-- `ns_split` of nodestore_skip.c: walk to index `mid` (`assert(x)`
fails when `mid` is out of range), read the separator there, then move
entries `mid..n-1` one at a time by `skiplist_insert` into the right
store and `skiplist_erase` from the left. -/
def skipSplit (l : Store) : Option (Store × Store × Int) :=
  let mid0 := l.length / 2
  let mid := if mid0 = 0 then 1 else mid0
  if h : mid < l.length then
    let sep := (l.get ⟨mid, h⟩).1
    let moved := l.drop mid
    let fin := moved.foldl
      (fun (ac : Store × Store) e => (slInsert ac.1 e.1 e.2, slErase ac.2 e.1)) ([], l)
    some (fin.2, fin.1, sep)
  else none

end NS

/-- Minimum-occupancy checker for the spec invariant: every non-root
node holds at least `ceil((M-1)/2)` keys if a leaf and at least
`ceil(M/2) - 1` keys if internal (`min_leaf_keys` / `min_internal_keys`
of the second bptree.c). -/
def occupancyOK (t : TState) : Bool :=
  t.heap.all fun p =>
    if t.root = some p.1 then true
    else if p.2.isLeaf then decide (BPU.minLeafKeys t ≤ nodeKeys p.2)
    else decide (BPU.minInternalKeys t ≤ nodeKeys p.2)

/-- Copy-up separator checker for the spec invariant: in every internal
node, the key at index `i` equals the minimum key of the subtree rooted
at the child in value slot `i` (child `i+1`). -/
def sepInvOK (t : TState) : Bool :=
  t.heap.all fun p =>
    p.2.isLeaf ||
    p.2.store.all fun e =>
      match e.2 with
      | some c => decide (BPU.subtreeFirstKey t c = e.1)
      | none => false

/-- Order-3 tree of src/code/bptree.c after inserting 10, 20, 30. -/
def c1StateC : TState := [10, 20, 30].foldl BPC.insertT (bptreeCreate 3 none)

/-- Order-3 tree of the second bptree.c after inserting 10, 20, 30. -/
def c1StateU : TState := [10, 20, 30].foldl BPU.insertT (bptreeCreate 3 none)

/-- Order-4 tree of src/code/bptree.c after inserting 1, 2, 3, 4 and
deleting 1. -/
def c2StateC : TState := BPC.deleteT ([1, 2, 3, 4].foldl BPC.insertT (bptreeCreate 4 none)) 1

/-- Order-4 tree of the second bptree.c after inserting 1, 2, 3, 4 and
deleting 1. -/
def c2StateU : TState := BPU.deleteT ([1, 2, 3, 4].foldl BPU.insertT (bptreeCreate 4 none)) 1

/-- Order-3 tree of the second bptree.c after inserting 1..7 and
deleting 5 (the root separator, which is the minimum of a leaf that is
`child0` of its parent). -/
def c3StateU : TState :=
  BPU.deleteT ([1, 2, 3, 4, 5, 6, 7].foldl BPU.insertT (bptreeCreate 3 none)) 5

/-- A hand-built order-3 state whose parent separator (20) is stale
with respect to the right leaf's minimum (25); used to witness the
parent-separator rewrite. -/
def c3WitState : TState :=
  { orderM := 3, maxKeys := 2, kind := NSKind.array, root := some 2,
    heap := [(0, { isLeaf := true, maxKeys := 2, parent := some 2, next := some 1,
                   child0 := none, store := [(10, none), (20, none)] }),
             (1, { isLeaf := true, maxKeys := 2, parent := some 2, next := none,
                   child0 := none, store := [(25, none), (30, none)] }),
             (2, { isLeaf := false, maxKeys := 2, parent := none, next := none,
                   child0 := some 0, store := [(20, some 1)] })],
    nextId := 3 }

/-- Leaf store contents rebuilt by the split reinsertion loop: each
key is paired with the null value sentinel. -/
def leafEntries (ks : List Int) : Store := ks.map (fun k => (k, none))

/-- The root leaf of `c1StateC` at the moment the third insert has
landed, just before `split_leaf` runs (store size `M = 3` exceeds
`max_keys = 2`). -/
def c5PreSplit : TState :=
  { orderM := 3, maxKeys := 2, kind := NSKind.array, root := some 0,
    heap := [(0, { isLeaf := true, maxKeys := 2, parent := none, next := none,
                   child0 := none, store := [(10, none), (20, none), (30, none)] })],
    nextId := 1 }

theorem hfind_hset_eq {h : Heap} {i : Nat} {n : Node} (nw : Node)
    (hs : hfind h i = some n) : hfind (hset h i nw) i = some nw := by
  induction h with
  | nil => simp [hfind] at hs
  | cons e h ih =>
    by_cases hji : e.1 = i
    · simp [hfind, hset, hji]
    · simp [hfind, hset, hji] at hs ⊢
      exact ih hs

theorem hfind_hset_ne {h : Heap} {i j : Nat} (nw : Node) (hne : j ≠ i) :
    hfind (hset h i nw) j = hfind h j := by
  induction h with
  | nil => simp [hset]
  | cons e h ih =>
    by_cases hji : e.1 = i
    · subst hji
      simp [hfind, hset, Ne.symm hne]
    · simp only [hset, hfind, if_neg hji]
      by_cases hj : e.1 = j
      · simp [hfind, hj]
      · simp [hfind, hj, ih]

theorem hfind_append_left {h h2 : Heap} {i : Nat} {n : Node}
    (hs : hfind h i = some n) : hfind (h ++ h2) i = some n := by
  induction h with
  | nil => simp [hfind] at hs
  | cons e h ih =>
    by_cases hji : e.1 = i
    · simpa [hfind, hji] using hs
    · simp [hfind, hji] at hs ⊢
      exact ih hs

theorem hfind_append_right {h h2 : Heap} {i : Nat}
    (hs : hfind h i = none) : hfind (h ++ h2) i = hfind h2 i := by
  induction h with
  | nil => simp [hfind]
  | cons e h ih =>
    by_cases hji : e.1 = i
    · simp [hfind, hji] at hs
    · simp [hfind, hji] at hs ⊢
      exact ih hs

theorem hupd_find_eq {t : TState} {i : Nat} {n : Node} (f : Node → Node)
    (hs : hfind t.heap i = some n) : hfind (hupd t i f).heap i = some (f n) := by
  unfold hupd
  rw [hs]
  exact hfind_hset_eq (f n) hs

theorem hupd_find_ne {t : TState} {i j : Nat} (f : Node → Node) (hne : j ≠ i) :
    hfind (hupd t i f).heap j = hfind t.heap j := by
  unfold hupd
  cases hs : hfind t.heap i with
  | none => rfl
  | some n => exact hfind_hset_ne (f n) hne

theorem hupd_kind (t : TState) (i : Nat) (f : Node → Node) :
    (hupd t i f).kind = t.kind := by
  unfold hupd
  cases hfind t.heap i <;> rfl

theorem hupd_root (t : TState) (i : Nat) (f : Node → Node) :
    (hupd t i f).root = t.root := by
  unfold hupd
  cases hfind t.heap i <;> rfl

theorem hupd_nextId (t : TState) (i : Nat) (f : Node → Node) :
    (hupd t i f).nextId = t.nextId := by
  unfold hupd
  cases hfind t.heap i <;> rfl

theorem hupd_maxKeys (t : TState) (i : Nat) (f : Node → Node) :
    (hupd t i f).maxKeys = t.maxKeys := by
  unfold hupd
  cases hfind t.heap i <;> rfl

theorem eraseIdx_insertIdx_eq_set {α : Type} :
    ∀ (l : List α) (i : Nat) (a : α), i < l.length →
      (l.eraseIdx i).insertIdx i a = l.set i a := by
  intro l
  induction l with
  | nil => intro i a h; simp at h
  | cons x xs ih =>
    intro i a h
    cases i with
    | zero => simp [List.eraseIdx, List.insertIdx]
    | succ j =>
      simp only [List.eraseIdx, List.insertIdx_succ_cons, List.set]
      rw [ih j a (by simpa using h)]

theorem insKeysLoop_pos_append (ks : List Int) :
    ∀ (ops : NSOps), ops.insertAt = NS.posInsertAt →
      ∀ s : Store, insKeysLoop ops ks s = s ++ ks.map (fun k => (k, none)) := by
  induction ks with
  | nil => intro ops hops s; simp [insKeysLoop]
  | cons k ks ih =>
    intro ops hops s
    have hstep : ops.insertAt s s.length k none = s ++ [(k, none)] := by
      rw [hops]
      exact List.insertIdx_length_self s (k, none)
    simp only [insKeysLoop, List.foldl_cons] at *
    rw [hstep, ih ops hops]
    simp

theorem heightAux_ge (t : TState) :
    ∀ (fuel : Nat) (x : Option Nat) (h : Nat), h ≤ heightAux t fuel x h := by
  intro fuel
  induction fuel with
  | zero => intro x h; simp [heightAux]
  | succ fuel ih =>
    intro x h
    cases x with
    | none => simp [heightAux]
    | some i =>
      cases hn : hfind t.heap i with
      | none => simp [heightAux, hn]
      | some n =>
        by_cases hl : n.isLeaf
        · simp [heightAux, hn, hl]
        · simp only [heightAux, hn, hl]
          exact le_trans (Nat.le_succ h) (ih n.child0 (h + 1))

theorem slInsert_append {k : Int} {v : Option Nat} :
    ∀ {s : Store}, (∀ e ∈ s, e.1 < k) → NS.slInsert s k v = s ++ [(k, v)] := by
  intro s
  induction s with
  | nil => intro _; rfl
  | cons e t ih =>
    intro hall
    have he : e.1 < k := hall e (by simp)
    simp only [NS.slInsert, if_pos he, List.cons_append]
    rw [ih (fun x hx => hall x (by simp [hx]))]

theorem slErase_append {k : Int} {v : Option Nat} :
    ∀ (pre suf : Store), (∀ e ∈ pre, e.1 < k) →
      NS.slErase (pre ++ (k, v) :: suf) k = pre ++ suf := by
  intro pre
  induction pre with
  | nil =>
    intro suf _
    simp [NS.slErase]
  | cons e t ih =>
    intro suf hall
    have he : e.1 < k := hall e (by simp)
    simp only [List.cons_append, NS.slErase, if_pos he]
    show e :: NS.slErase (t ++ (k, v) :: suf) k = e :: (t ++ suf)
    rw [ih suf (fun x hx => hall x (by simp [hx]))]

theorem skip_move_fold :
    ∀ (suf pre r : Store),
      (∀ e ∈ r, ∀ e2 ∈ suf, e.1 < e2.1) →
      (∀ e ∈ pre, ∀ e2 ∈ suf, e.1 < e2.1) →
      List.Pairwise (· < ·) (suf.map Prod.fst) →
      suf.foldl (fun (ac : Store × Store) e =>
        (NS.slInsert ac.1 e.1 e.2, NS.slErase ac.2 e.1)) (r, pre ++ suf) =
        (r ++ suf, pre) := by
  intro suf
  induction suf with
  | nil => intro pre r _ _ _; simp
  | cons e suf ih =>
    intro pre r hr hpre hpw
    have hins : NS.slInsert r e.1 e.2 = r ++ [e] := by
      exact slInsert_append (fun x hx => hr x hx e (by simp))
    have hera : NS.slErase (pre ++ e :: suf) e.1 = pre ++ suf := by
      exact slErase_append pre suf (fun x hx => hpre x hx e (by simp))
    simp only [List.foldl_cons, hins, hera]
    have hpw2 : List.Pairwise (· < ·) (suf.map Prod.fst) := by
      simp only [List.map_cons, List.pairwise_cons] at hpw
      exact hpw.2
    have hkey : ∀ e2 ∈ suf, e.1 < e2.1 := by
      simp only [List.map_cons, List.pairwise_cons] at hpw
      intro e2 he2
      exact hpw.1 e2.1 (List.mem_map_of_mem Prod.fst he2)
    have hr2 : ∀ x ∈ r ++ [e], ∀ e2 ∈ suf, x.1 < e2.1 := by
      intro x hx e2 he2
      rcases List.mem_append.mp hx with hx | hx
      · exact hr x hx e2 (by simp [he2])
      · simp at hx
        subst hx
        exact hkey e2 he2
    have hpre2 : ∀ x ∈ pre, ∀ e2 ∈ suf, x.1 < e2.1 := by
      intro x hx e2 he2
      exact hpre x hx e2 (by simp [he2])
    rw [ih pre (r ++ [e]) hr2 hpre2 hpw2]
    simp

theorem hfind_single (a : Nat) (b : Node) : hfind [(a, b)] a = some b := by
  simp [hfind]

theorem lb_nil (k : NSKind) (key : Int) : (nsGetOps k).lowerBound [] key = 0 := by
  cases k <;> simp [nsGetOps, NS.arrayLowerBound, NS.lbAux, NS.linearLowerBound]

/-- Claim C1 (code_bug evidence).  In src/code/bptree.c the descent is a
plain lower bound, so a key equal to an internal separator goes into the
child left of the separator and search misses it: with `M = 3`, after
inserting 10, 20 and 30 (and deleting nothing), `bptree_search(t, 30)`
returns 0 even though 10 and 20 are found; the second implementation
(upper-bound descent, as the spec states) finds 30. -/
theorem C1_lower_bound_descent_misses_separator_key :
    BPC.searchT c1StateC 30 = false ∧
    BPC.searchT c1StateC 10 = true ∧
    BPC.searchT c1StateC 20 = true ∧
    BPU.searchT c1StateU 30 = true := by
  decide

/-- Claim C2 (code_bug evidence).  `bptree_delete` in src/code/bptree.c
erases the key and shrinks empty roots but never borrows or merges:
with `M = 4`, after inserting 1, 2, 3, 4 and deleting 1, the non-root
leaf (node 0) holds a single key, below the leaf minimum
`ceil((M-1)/2) = 2`, so the minimum-occupancy invariant is violated;
the second implementation rebalances and satisfies it on the same
input. -/
theorem C2_delete_without_rebalance_underflows :
    occupancyOK c2StateC = false ∧
    c2StateC.root = some 2 ∧
    (hfind c2StateC.heap 0).map nodeKeys = some 1 ∧
    BPU.minLeafKeys c2StateC = 2 ∧
    occupancyOK c2StateU = true := by
  decide

/-- Claim C3 (counterexample).  The copy-up separator invariant fails on
a reachable tree of the second bptree.c: with `M = 3`, insert 1..7 and
delete 5.  The deleted key 5 was the minimum of a leaf that is `child0`
of its parent, and `update_parent_sep_if_needed` rewrites only the
immediate parent's separator, so the root (node 6) still stores
separator 5 for its second child (node 5) whose subtree minimum is now
6. -/
theorem C3_separator_invariant_counterexample :
    sepInvOK c3StateU = false ∧
    (hfind c3StateU.heap 6).map Node.isLeaf = some false ∧
    c3StateU.root = some 6 ∧
    (hfind c3StateU.heap 6).map (fun n => valAt n 0) = some (some 5) ∧
    (hfind c3StateU.heap 6).map (fun n => keyAt n 0) = some 5 ∧
    BPU.subtreeFirstKey c3StateU 5 = 6 := by
  decide

/-- Claim C3 (amended).  The separator maintenance implemented by
`update_parent_sep_if_needed` is one level deep: when a leaf `x` with a
nonempty store is child `j > 0` of its parent `p`, the call rewrites
exactly `p.key[j-1]` to the leaf's minimum (keeping the value slot) and
changes no other node; when `x` is `child0` no ancestor is touched,
which is why the global invariant can fail (see the counterexample).
Stated for the array and linked backends, whose `insert_at`/`erase_at`
are positional. -/
theorem C3_parent_separator_rewrite (t : TState) (x p j : Nat) (xn pn : Node)
    (hkind : t.kind = NSKind.array ∨ t.kind = NSKind.linked)
    (hx : hfind t.heap x = some xn)
    (hleaf : xn.isLeaf = true)
    (hne : 0 < nodeKeys xn)
    (hpar : xn.parent = some p)
    (hp : hfind t.heap p = some pn)
    (hj : BPU.parentChildIndex t p x = some j)
    (hj0 : 0 < j)
    (hrange : j - 1 < pn.store.length) :
    hfind (BPU.updateParentSepIfNeeded t x).heap p =
      some { pn with store := pn.store.set (j - 1) (keyAt xn 0, valAt pn (j - 1)) } ∧
    (∀ q, q ≠ p → hfind (BPU.updateParentSepIfNeeded t x).heap q = hfind t.heap q) := by
  have hne0 : nodeKeys xn ≠ 0 := Nat.pos_iff_ne_zero.mp hne
  have hstep : BPU.updateParentSepIfNeeded t x = BPU.storeSetKey t p (j - 1) (keyAt xn 0) := by
    unfold BPU.updateParentSepIfNeeded
    simp [hx, hpar, hj, hleaf, hne0, hj0]
  have hins : (nsGetOps t.kind).insertAt ((nsGetOps t.kind).eraseAt pn.store (j - 1)) (j - 1)
      (keyAt xn 0) (valAt pn (j - 1)) = pn.store.set (j - 1) (keyAt xn 0, valAt pn (j - 1)) := by
    rcases hkind with hk | hk <;>
      · rw [hk]
        show ((pn.store.eraseIdx (j - 1)).insertIdx (j - 1) ((keyAt xn 0, valAt pn (j - 1)))) = _
        exact eraseIdx_insertIdx_eq_set pn.store (j - 1) _ hrange
  rw [hstep]
  unfold BPU.storeSetKey
  constructor
  · rw [hupd_find_eq _ hp]
    simp [hrange, hins]
  · intro q hq
    exact hupd_find_ne _ hq

/-- Witness for the amended claim C3: in the hand-built state whose
parent separator 20 is stale, updating for the right leaf (child 1,
minimum 25) rewrites the parent's key 0 to 25. -/
theorem C3_parent_separator_rewrite_witness :
    hfind (BPU.updateParentSepIfNeeded c3WitState 1).heap 2 =
      some { isLeaf := false, maxKeys := 2, parent := none, next := none,
             child0 := some 0, store := [(25, some 1)] } :=
  (C3_parent_separator_rewrite c3WitState 1 2 1
    { isLeaf := true, maxKeys := 2, parent := some 2, next := none,
      child0 := none, store := [(25, none), (30, none)] }
    { isLeaf := false, maxKeys := 2, parent := none, next := none,
      child0 := some 0, store := [(20, some 1)] }
    (Or.inl rfl) (by decide) rfl (by decide) rfl (by decide) (by decide)
    (by decide) (by decide)).1

/-- Claim C4 (code_bug evidence).  Insert is not idempotent in
src/code/bptree.c: after inserting 10, 20, 30 with `M = 3`, a second
`bptree_insert(t, 30)` descends left of the separator 30, misses the
duplicate, inserts it again and splits, leaving the root with two
separators (both 30) — the state changes.  The second implementation
returns the identical state. -/
theorem C4_duplicate_insert_mutates :
    BPC.insertT c1StateC 30 ≠ c1StateC ∧
    (hfind (BPC.insertT c1StateC 30).heap 2).map nodeKeys = some 2 ∧
    (hfind c1StateC.heap 2).map nodeKeys = some 1 ∧
    BPU.insertT c1StateU 30 = c1StateU := by
  decide

/-- Claim C5.  General law of `split_leaf` (identical in both bptree.c
files), together with the concrete order-3 scenario.  For any node with
`total = max_keys + 1 = M` keys and no parent, `split_leaf` (up to its
final `insert_into_parent` call) keeps the first `ceil(total/2)` keys
in the original leaf, moves the remaining `total - ceil(total/2)` keys
in order into the fresh right leaf, splices it into the leaf chain, and
the separator it passes up is the right leaf's first key.  Concretely,
inserting 10, 20, 30 into an empty order-3 tree of src/code/bptree.c
gives height 2, a root whose single separator is 30, a leftmost child
leaf [10, 20] and a second child leaf [30]. -/
theorem C5_order3_leaf_split (t : TState) (li : Nat) (n : Node)
    (hkind : t.kind = NSKind.array ∨ t.kind = NSKind.linked)
    (hli : hfind t.heap li = some n)
    (htotal : nodeKeys n = t.maxKeys + 1)
    (hmk : 2 ≤ t.maxKeys)
    (hfresh : hfind t.heap t.nextId = none)
    (hne : li ≠ t.nextId) :
    ((splitLeafCore t li).2.2 = t.nextId ∧
     hfind (splitLeafCore t li).1.heap li =
       some { n with store := leafEntries ((n.store.map Prod.fst).take ((nodeKeys n + 1) / 2)), next := some t.nextId } ∧
     hfind (splitLeafCore t li).1.heap t.nextId =
       some { isLeaf := true, maxKeys := t.maxKeys, parent := n.parent, next := n.next,
              child0 := none,
              store := leafEntries ((n.store.map Prod.fst).drop ((nodeKeys n + 1) / 2)) } ∧
     (splitLeafCore t li).2.1 =
       ((n.store.map Prod.fst).drop ((nodeKeys n + 1) / 2)).headD 0 ∧
     ((n.store.map Prod.fst).take ((nodeKeys n + 1) / 2)).length = (nodeKeys n + 1) / 2 ∧
     ((n.store.map Prod.fst).drop ((nodeKeys n + 1) / 2)).length =
       nodeKeys n - (nodeKeys n + 1) / 2) ∧
    (heightT c1StateC = 2 ∧
     c1StateC.root = some 2 ∧
     hfind c1StateC.heap 2 =
       some { isLeaf := false, maxKeys := 2, parent := none, next := none,
              child0 := some 0, store := [(30, some 1)] } ∧
     hfind c1StateC.heap 0 =
       some { isLeaf := true, maxKeys := 2, parent := some 2, next := some 1,
              child0 := none, store := [(10, none), (20, none)] } ∧
     hfind c1StateC.heap 1 =
       some { isLeaf := true, maxKeys := 2, parent := some 2, next := none,
              child0 := none, store := [(30, none)] }) := by
  refine ⟨?_, by decide, by decide, by decide, by decide, by decide⟩
  have hops : (nsGetOps t.kind).insertAt = NS.posInsertAt := by
    rcases hkind with hk | hk <;> rw [hk] <;> rfl
  have hloop : ∀ ks : List Int,
      insKeysLoop (nsGetOps t.kind) ks [] = leafEntries ks := by
    intro ks
    rw [insKeysLoop_pos_append ks _ hops]
    simp [leafEntries]
  have hkslen : (n.store.map Prod.fst).length = nodeKeys n := by simp [nodeKeys]
  set s1 : TState := { t with heap := (t.heap ++ [(t.nextId,
      { isLeaf := true, maxKeys := t.maxKeys, parent := n.parent, next := none,
        child0 := none, store := [] })]), nextId := t.nextId + 1 } with hs1
  set s2 := hupd s1 li (fun m => { m with store := [] }) with hs2
  set s3 := hupd s2 li (fun m => { m with store := (insKeysLoop (nsGetOps t.kind)
      ((n.store.map Prod.fst).take ((nodeKeys n + 1) / 2)) m.store) }) with hs3
  set s4 := hupd s3 t.nextId (fun m => { m with store := (insKeysLoop (nsGetOps t.kind)
      ((n.store.map Prod.fst).drop ((nodeKeys n + 1) / 2)) m.store) }) with hs4
  set s5 := hupd s4 t.nextId (fun m => { m with next := n.next }) with hs5
  set s6 := hupd s5 li (fun m => { m with next := some t.nextId }) with hs6
  have h1li : hfind s1.heap li = some n := by
    rw [hs1]
    exact hfind_append_left hli
  have h1ri : hfind s1.heap t.nextId =
      some { isLeaf := true, maxKeys := t.maxKeys, parent := n.parent, next := none,
             child0 := none, store := [] } := by
    rw [hs1]
    show hfind (t.heap ++ _) t.nextId = _
    rw [hfind_append_right hfresh]
    exact hfind_single _ _
  have h2li : hfind s2.heap li = some { n with store := ([] : Store) } := by
    rw [hs2]
    exact hupd_find_eq _ h1li
  have h2ri : hfind s2.heap t.nextId =
      some { isLeaf := true, maxKeys := t.maxKeys, parent := n.parent, next := none,
             child0 := none, store := [] } := by
    rw [hs2, hupd_find_ne _ (Ne.symm hne)]
    exact h1ri
  have h3li : hfind s3.heap li =
      some { n with store := leafEntries ((n.store.map Prod.fst).take
               ((nodeKeys n + 1) / 2)) } := by
    rw [hs3, hupd_find_eq _ h2li]
    simp [hloop]
  have h3ri : hfind s3.heap t.nextId =
      some { isLeaf := true, maxKeys := t.maxKeys, parent := n.parent, next := none,
             child0 := none, store := [] } := by
    rw [hs3, hupd_find_ne _ (Ne.symm hne)]
    exact h2ri
  have h4ri : hfind s4.heap t.nextId =
      some { isLeaf := true, maxKeys := t.maxKeys, parent := n.parent, next := none,
             child0 := none,
             store := leafEntries ((n.store.map Prod.fst).drop ((nodeKeys n + 1) / 2)) } := by
    rw [hs4, hupd_find_eq _ h3ri]
    simp [hloop]
  have h4li : hfind s4.heap li =
      some { n with store := leafEntries ((n.store.map Prod.fst).take
               ((nodeKeys n + 1) / 2)) } := by
    rw [hs4, hupd_find_ne _ hne]
    exact h3li
  have h5ri : hfind s5.heap t.nextId =
      some { isLeaf := true, maxKeys := t.maxKeys, parent := n.parent, next := n.next,
             child0 := none,
             store := leafEntries ((n.store.map Prod.fst).drop ((nodeKeys n + 1) / 2)) } := by
    rw [hs5, hupd_find_eq _ h4ri]
  have h5li : hfind s5.heap li =
      some { n with store := leafEntries ((n.store.map Prod.fst).take
               ((nodeKeys n + 1) / 2)) } := by
    rw [hs5, hupd_find_ne _ hne]
    exact h4li
  have h6li : hfind s6.heap li =
      some { n with store := leafEntries ((n.store.map Prod.fst).take ((nodeKeys n + 1) / 2)), next := some t.nextId } := by
    rw [hs6, hupd_find_eq _ h5li]
  have h6ri : hfind s6.heap t.nextId =
      some { isLeaf := true, maxKeys := t.maxKeys, parent := n.parent, next := n.next,
             child0 := none,
             store := leafEntries ((n.store.map Prod.fst).drop ((nodeKeys n + 1) / 2)) } := by
    rw [hs6, hupd_find_ne _ (Ne.symm hne)]
    exact h5ri
  have hcore : splitLeafCore t li =
      (s6, (match hfind s6.heap t.nextId with
            | some rn => keyAt rn 0
            | none => 0), t.nextId) := by
    rw [hs6, hs5, hs4, hs3, hs2, hs1]
    simp only [splitLeafCore, hli, halloc]
  obtain ⟨k0, tl, hdrop⟩ : ∃ k0 tl,
      (n.store.map Prod.fst).drop ((nodeKeys n + 1) / 2) = k0 :: tl := by
    cases hd : (n.store.map Prod.fst).drop ((nodeKeys n + 1) / 2) with
    | nil =>
      have := List.length_drop ((nodeKeys n + 1) / 2) (n.store.map Prod.fst)
      rw [hd, hkslen] at this
      simp at this
      omega
    | cons k0 tl => exact ⟨k0, tl, rfl⟩
  refine ⟨by rw [hcore], by rw [hcore]; exact h6li, by rw [hcore]; exact h6ri, ?_, ?_, ?_⟩
  · rw [hcore]
    show (match hfind s6.heap t.nextId with
          | some rn => keyAt rn 0
          | none => 0) = _
    rw [h6ri, hdrop]
    simp [keyAt, leafEntries]
  · rw [List.length_take, hkslen]
    omega
  · rw [List.length_drop, hkslen]

/-- Witness for claim C5: splitting the overflowing root leaf
[10, 20, 30] of an order-3 tree keeps [10, 20], moves [30] into the
fresh leaf (id 1), and passes separator 30 up. -/
theorem C5_order3_leaf_split_witness :
    hfind (splitLeafCore c5PreSplit 0).1.heap 0 =
      some { isLeaf := true, maxKeys := 2, parent := none, next := some 1,
             child0 := none, store := [(10, none), (20, none)] } ∧
    hfind (splitLeafCore c5PreSplit 0).1.heap 1 =
      some { isLeaf := true, maxKeys := 2, parent := none, next := none,
             child0 := none, store := [(30, none)] } ∧
    (splitLeafCore c5PreSplit 0).2.1 = 30 := by
  have h := C5_order3_leaf_split c5PreSplit 0
    { isLeaf := true, maxKeys := 2, parent := none, next := none, child0 := none,
      store := [(10, none), (20, none), (30, none)] }
    (Or.inl rfl) rfl (by decide) (by decide) rfl (by decide)
  exact ⟨h.1.2.1, h.1.2.2.1, h.1.2.2.2.1⟩

/-- Claim C6 (counterexample).  The claim fails at `n = 1`: the array
backend's `ns_split` on a single-entry store leaves `floor(1/2) = 0`
entries in the left store, not "at least 1 entry when n ≥ 1". -/
theorem C6_split_singleton_counterexample :
    (NS.arraySplit [((5 : Int), (none : Option Nat))]).1 = [] ∧
    1 ≤ ([((5 : Int), (none : Option Nat))] : Store).length ∧
    ¬ 1 ≤ (NS.arraySplit [((5 : Int), (none : Option Nat))]).1.length := by
  decide

/-- Claim C6 (amended to `n ≥ 2`).  For every store of `n ≥ 2` strictly
ascending entries, `ns_split` of each backend (array, linked list,
skip) leaves exactly `floor(n/2) ≥ 1` entries in the left store, moves
the remaining entries in order into the empty right store, and returns
the first key of the right store.  (At `n = 1` the array backend keeps
0 entries and the list/skip backends hit their assertions, refuting the
claim as frozen.) -/
theorem C6_backend_split (l : Store) (h2 : 2 ≤ l.length)
    (hsort : List.Sorted (· < ·) (l.map Prod.fst)) :
    (∃ e : Entry, (l.drop (l.length / 2)).head? = some e ∧
      NS.arraySplit l = (l.take (l.length / 2), l.drop (l.length / 2), some e.1) ∧
      NS.listSplit l = some (l.take (l.length / 2), l.drop (l.length / 2), e.1) ∧
      NS.skipSplit l = some (l.take (l.length / 2), l.drop (l.length / 2), e.1)) ∧
    (l.take (l.length / 2)).length = l.length / 2 ∧
    1 ≤ l.length / 2 ∧
    l.take (l.length / 2) ++ l.drop (l.length / 2) = l := by
  have hmid1 : 1 ≤ l.length / 2 := by omega
  have hmidlt : l.length / 2 < l.length := by omega
  have hdrop : l.drop (l.length / 2) =
      l.get ⟨l.length / 2, hmidlt⟩ :: l.drop (l.length / 2 + 1) :=
    List.drop_eq_getElem_cons hmidlt
  refine ⟨⟨l.get ⟨l.length / 2, hmidlt⟩, ?_, ?_, ?_, ?_⟩, ?_, hmid1, List.take_append_drop _ l⟩
  · rw [hdrop]; rfl
  · simp only [NS.arraySplit, hdrop]
    rfl
  · have hne0 : l.length / 2 ≠ 0 := by omega
    have hlne0 : l.length ≠ 0 := by omega
    simp only [NS.listSplit, hne0, if_false, hlne0, hdrop]
    rfl
  · unfold NS.skipSplit
    have hne0 : l.length / 2 ≠ 0 := by omega
    have hif : (if (l.length / 2 : Nat) = 0 then 1 else l.length / 2) = l.length / 2 := by
      simp [hne0]
    simp only [hif]
    rw [dif_pos hmidlt]
    have hsplit : l.take (l.length / 2) ++ l.drop (l.length / 2) = l :=
      List.take_append_drop _ l
    have hpw : List.Pairwise (· < ·) (l.map Prod.fst) := hsort
    have hpwsplit : List.Pairwise (· < ·)
        ((l.take (l.length / 2)).map Prod.fst ++ (l.drop (l.length / 2)).map Prod.fst) := by
      rw [← List.map_append, hsplit]
      exact hpw
    rw [List.pairwise_append] at hpwsplit
    have hcross : ∀ e ∈ l.take (l.length / 2), ∀ e2 ∈ l.drop (l.length / 2), e.1 < e2.1 := by
      intro e he e2 he2
      exact hpwsplit.2.2 e.1 (List.mem_map_of_mem Prod.fst he) e2.1
        (List.mem_map_of_mem Prod.fst he2)
    have hfold := skip_move_fold (l.drop (l.length / 2)) (l.take (l.length / 2)) []
      (by intro e he; simp at he) hcross hpwsplit.2.1
    rw [hsplit] at hfold
    rw [hfold]
    simp
  · rw [List.length_take]
    omega

/-- Witness for the amended claim C6: splitting the three-entry store
[(1,·), (2,·), (3,·)] leaves [(1,·)] on the left, moves [(2,·), (3,·)]
to the right and returns separator 2, in all three backends. -/
theorem C6_backend_split_witness :
    NS.arraySplit [((1 : Int), (none : Option Nat)), (2, none), (3, none)] =
      ([(1, none)], [(2, none), (3, none)], some 2) ∧
    NS.listSplit [((1 : Int), (none : Option Nat)), (2, none), (3, none)] =
      some ([(1, none)], [(2, none), (3, none)], 2) ∧
    NS.skipSplit [((1 : Int), (none : Option Nat)), (2, none), (3, none)] =
      some ([(1, none)], [(2, none), (3, none)], 2) := by
  obtain ⟨⟨e, he, h1, h2, h3⟩, -, -, -⟩ :=
    C6_backend_split [((1 : Int), (none : Option Nat)), (2, none), (3, none)]
      (by decide) (by decide)
  have hev : e = ((2 : Int), (none : Option Nat)) := by
    simp at he
    exact he.symm
  subst hev
  exact ⟨h1, h2, h3⟩

/-- Claim C7.  Deleting an absent key is the identity in both bptree.c
implementations: whenever `bptree_search(t, k)` is false, the delete
descends to the same leaf, fails the same `leaf_find` test and returns
before mutating anything, so the entire tree state is unchanged and no
error is signalled. -/
theorem C7_absent_delete_identity (t : TState) (key : Int) :
    (BPC.searchT t key = false → BPC.deleteT t key = t) ∧
    (BPU.searchT t key = false → BPU.deleteT t key = t) := by
  constructor
  · intro h
    unfold BPC.searchT at h
    unfold BPC.deleteT
    cases hr : t.root with
    | none => rfl
    | some r =>
      rw [hr] at h
      cases hf : BPC.findLeaf t key with
      | none => rfl
      | some li =>
        rw [hf] at h
        simp only [] at h
        simp [h]
  · intro h
    unfold BPU.searchT at h
    unfold BPU.deleteT
    cases hr : t.root with
    | none => rfl
    | some r =>
      rw [hr] at h
      cases hf : BPU.findLeaf t key with
      | none => rfl
      | some li =>
        rw [hf] at h
        simp only [] at h
        simp [h]

/-- Witness for claim C7: in the order-3 tree holding {10, 20, 30}, the
key 25 is absent and deleting it leaves the state untouched in both
implementations. -/
theorem C7_absent_delete_identity_witness :
    BPC.searchT c1StateC 25 = false ∧
    BPC.deleteT c1StateC 25 = c1StateC ∧
    BPU.searchT c1StateU 25 = false ∧
    BPU.deleteT c1StateU 25 = c1StateU :=
  ⟨by decide, (C7_absent_delete_identity c1StateC 25).1 (by decide),
   by decide, (C7_absent_delete_identity c1StateU 25).2 (by decide)⟩

/-- Claim C8.  `bptree_create(M, ops)` clamps the order to
`max(M, 3)`, allocates a non-null root that is a single empty leaf
(the whole heap is that one node), reports height 1, finds no key,
treats every delete as a no-op, and a null ops table selects the array
backend. -/
theorem C8_create_empty_tree (m : Int) (ops? : Option NSKind) :
    (bptreeCreate m ops?).orderM = max m 3 ∧
    (bptreeCreate m ops?).root = some 0 ∧
    (bptreeCreate m ops?).heap =
      [(0, { isLeaf := true, maxKeys := (max m 3 - 1).toNat, parent := none,
             next := none, child0 := none, store := [] })] ∧
    heightT (bptreeCreate m ops?) = 1 ∧
    (∀ key, BPC.searchT (bptreeCreate m ops?) key = false) ∧
    (∀ key, BPC.deleteT (bptreeCreate m ops?) key = bptreeCreate m ops?) ∧
    (bptreeCreate m none).kind = NSKind.array := by
  have hmax : (if m < 3 then (3 : Int) else m) = max m 3 := by
    by_cases h : m < 3
    · simp [h, max_eq_right (le_of_lt h)]
    · simp [h, max_eq_left (le_of_not_lt h)]
  have hr : (bptreeCreate m ops?).root = some 0 := rfl
  have hfl : ∀ key, BPC.findLeaf (bptreeCreate m ops?) key = some 0 := by
    intro key
    simp [BPC.findLeaf, bptreeCreate, BPC.findLeafAux, hfind]
  have hlf : ∀ key, leafFind (bptreeCreate m ops?) 0 key = (false, 0) := by
    intro key
    simp [leafFind, bptreeCreate, hfind, lb_nil, nodeKeys]
  refine ⟨by simp [bptreeCreate, hmax], rfl, by simp [bptreeCreate, hmax], ?_, ?_, ?_, rfl⟩
  · simp [heightT, bptreeCreate, heightAux, hfind]
  · intro key
    simp only [BPC.searchT, hr, hfl key, hlf key]
  · intro key
    simp only [BPC.deleteT, hr, hfl key, hlf key, Bool.false_eq_true, if_false]

/-- Claim C10.  Null tree handles are safe and total:
`bptree_search(NULL, k)` returns 0, `bptree_insert(NULL, k)` and
`bptree_delete(NULL, k)` return without effect, `bptree_destroy(NULL)`
frees nothing, and `bptree_height(NULL)` is 0 — while any tree whose
root pointer is set reports height at least the documented minimum 1. -/
theorem C10_null_handle_safety :
    (∀ key, BPC.searchH none key = false) ∧
    (∀ key, BPC.insertH none key = none) ∧
    (∀ key, BPC.deleteH none key = none) ∧
    bptreeDestroy none = [] ∧
    BPC.heightH none = 0 ∧
    (∀ (t : TState) (r : Nat), t.root = some r → 1 ≤ BPC.heightH (some t)) := by
  refine ⟨fun _ => rfl, fun _ => rfl, fun _ => rfl, rfl, rfl, ?_⟩
  intro t r hr
  show 1 ≤ heightT t
  unfold heightT
  rw [hr]
  exact heightAux_ge t (t.heap.length + 1) (some r) 1

/-- Witness for claim C10: the freshly created order-4 tree has a set
root pointer and its height is at least 1. -/
theorem C10_null_handle_safety_witness :
    1 ≤ BPC.heightH (some (bptreeCreate 4 none)) :=
  C10_null_handle_safety.2.2.2.2.2 (bptreeCreate 4 none) 0 rfl
